import Mathlib

/-!
# Live-edit engine: shallow embedding and verification

This file embeds the live-edit runtime entry points of
`src/src/runtime/runtime-liveedit.cc` together with the live-edit engine
they delegate to.  The runtime file itself is pure glue: every
`RUNTIME_FUNCTION` first checks `isolate->debug()->live_edit_enabled()`,
validates its arguments, and then calls into `LiveEdit::...`.  The
`LiveEdit` engine (text differencer, position patcher, activation
scanner, code swapper, script version manager) is not part of the
visible sources, so those operations are modelled from the
specification, as marked in their doc comments.  The glue behaviour
(argument shapes, the enabled-check, the feature-tracker side effect of
`Runtime_LiveEditCompareStrings`) is translated directly from the
source file.
-/

set_option autoImplicit false

namespace LiveEdit

/-! ## Data model -/

/-- A change region as produced by the differencer: a triple
`(pos1, pos1_end, pos2_end)` — the replaced interval `[pos1, pos1_end)`
in old-text coordinates together with the end `pos2_end` of the
replacement interval in new-text coordinates (its start is the image of
`pos1`, which absorbs the shifts of all earlier regions). -/
structure ChangeRegion where
  pos1 : Nat
  pos1End : Nat
  pos2End : Nat
deriving DecidableEq, Repr

/-- Modelled from the spec: the per-function classification computed by
the activation scanner (`PatchabilityStatus` in §3 of the design). -/
inductive PatchabilityStatus where
  | AVAILABLE
  | BLOCKED_ACTIVE
  | BLOCKED_ON_ACTIVE_GENERATOR
  | PATCHED
  | REPLACED_ON_ACTIVE_STACK
deriving DecidableEq, Repr

/-- A function record (`SharedFunctionInfo` in the source): name,
start/end offsets into its script, a literal id, the script it belongs
to, its currently bound compiled-code reference, and the embedded
references to nested function records. -/
structure SharedFunctionInfo where
  name : String
  startPosition : Nat
  endPosition : Nat
  literalId : Nat
  scriptId : Nat
  code : Nat
  nestedRefs : List Nat
deriving DecidableEq, Repr

/-- The wrapper built by `SharedInfoWrapper::Create` /
`SetProperties(name, start_position, end_position, shared)` in
`Runtime_LiveEditFindSharedFunctionInfosForScript`. -/
structure SharedInfoWrapper where
  name : String
  startPosition : Nat
  endPosition : Nat
  shared : SharedFunctionInfo
deriving DecidableEq, Repr

/-- A heap object, as seen by the `HeapIterator` walk in
`Runtime_LiveEditFindSharedFunctionInfosForScript`: either a
`SharedFunctionInfo` or some other object (opaque here). -/
inductive HeapObject where
  | sharedFunctionInfo (shared : SharedFunctionInfo)
  | other (id : Nat)
deriving DecidableEq, Repr

/-- A script: identity, name, source text, current maximal literal id. -/
structure Script where
  id : Nat
  name : String
  source : String
  maxLiteralId : Nat
deriving DecidableEq, Repr

/-- Modelled from the spec: one live call frame of some thread, as
enumerated by the external stack-walking collaborator.  `droppable`
records whether forced unwinding is safe at this frame and
`suspendedGenerator` whether it is a suspended-coroutine frame. -/
structure StackFrame where
  functionId : Nat
  droppable : Bool
  suspendedGenerator : Bool
deriving DecidableEq, Repr

/-- Errors surfaced by the runtime entry points: a failed `CHECK`
(argument shape or the live-edit-enabled precondition), the
prerequisite violation of a blocked edit, and compile/match failures. -/
inductive RuntimeError where
  | checkFailed
  | prerequisiteViolation
  | compileError
  | matchError
deriving DecidableEq, Repr

/-- The debug feature recorded by
`isolate->debug()->feature_tracker()->Track(DebugFeatureTracker::kLiveEdit)`. -/
inductive DebugFeature where
  | kLiveEdit
deriving DecidableEq, Repr

/-! ## Text Differencer

Modelled from the spec: `LiveEdit::CompareStrings` (the Text
Differencer of §4.1) is not among the visible sources.  The spec asks
for an LCS-based comparison producing a sorted, non-adjacent list of
`ChangeRegion` triples; the two-phase line/token refinement is modelled
as a single LCS pass at character granularity, which realises the same
output contract. -/

/-- Length of a longest common subsequence of two token lists. -/
def lcsLen : List Char → List Char → Nat
  | [], _ => 0
  | _ :: _, [] => 0
  | a :: as, b :: bs =>
    if a = b then lcsLen as bs + 1
    else max (lcsLen as (b :: bs)) (lcsLen (a :: as) bs)
termination_by l1 l2 => l1.length + l2.length
decreasing_by all_goals simp_arith

/-- One step of an edit script: keep a common token, delete an old
token, or insert a new token. -/
inductive DiffOp where
  | keep (c : Char)
  | del (c : Char)
  | ins (c : Char)
deriving DecidableEq, Repr

/-- LCS-based edit script between two token lists; ties favour the
earliest-starting match (delete before insert). -/
def diffScript : List Char → List Char → List DiffOp
  | [], ys => ys.map DiffOp.ins
  | x :: xs, [] => DiffOp.del x :: diffScript xs []
  | x :: xs, y :: ys =>
    if x = y then DiffOp.keep x :: diffScript xs ys
    else if lcsLen (x :: xs) ys ≤ lcsLen xs (y :: ys) then
      DiffOp.del x :: diffScript xs (y :: ys)
    else
      DiffOp.ins y :: diffScript (x :: xs) ys
termination_by l1 l2 => l1.length + l2.length
decreasing_by all_goals simp_arith

/-- The old text an edit script describes (kept and deleted tokens). -/
def scriptOldText : List DiffOp → List Char
  | [] => []
  | DiffOp.keep c :: r => c :: scriptOldText r
  | DiffOp.del c :: r => c :: scriptOldText r
  | DiffOp.ins _ :: r => scriptOldText r

/-- The new text an edit script describes (kept and inserted tokens). -/
def scriptNewText : List DiffOp → List Char
  | [] => []
  | DiffOp.keep c :: r => c :: scriptNewText r
  | DiffOp.del _ :: r => scriptNewText r
  | DiffOp.ins c :: r => c :: scriptNewText r

/-- A script step that is part of a change region (not a kept token). -/
def isEdit : DiffOp → Bool
  | DiffOp.keep _ => false
  | DiffOp.del _ => true
  | DiffOp.ins _ => true

/-- Number of deleted tokens in a script fragment. -/
def numDels (l : List DiffOp) : Nat :=
  l.countP fun o => match o with | DiffOp.del _ => true | _ => false

/-- Number of inserted tokens in a script fragment. -/
def numIns (l : List DiffOp) : Nat :=
  l.countP fun o => match o with | DiffOp.ins _ => true | _ => false

/-- Helper: `dropWhile` never lengthens a list. -/
theorem dropWhile_length_le (p : DiffOp → Bool) :
    ∀ l : List DiffOp, (l.dropWhile p).length ≤ l.length
  | [] => Nat.le_refl _
  | a :: l => by
    rw [List.dropWhile]
    cases p a
    · exact Nat.le_refl _
    · exact Nat.le_succ_of_le (dropWhile_length_le p l)

/-- Grouping of an edit script into `ChangeRegion` triples: maximal
runs of non-keep steps become one region; kept tokens advance both
cursors.  Regions come out sorted by `pos1` and non-adjacent (two
regions are always separated by at least one kept token). -/
def toRegions : List DiffOp → Nat → Nat → List ChangeRegion
  | [], _, _ => []
  | op :: rest, oldPos, newPos =>
    if isEdit op then
      let chunk := op :: rest.takeWhile isEdit
      let d := numDels chunk
      let i := numIns chunk
      ChangeRegion.mk oldPos (oldPos + d) (newPos + i) ::
        toRegions (rest.dropWhile isEdit) (oldPos + d) (newPos + i)
    else
      toRegions rest (oldPos + 1) (newPos + 1)
termination_by l _ _ => l.length
decreasing_by
  · exact Nat.lt_succ_of_le (dropWhile_length_le isEdit rest)
  · simp

/-- Modelled from the spec: `LiveEdit::CompareStrings` — the diff of
two texts as an ordered list of `(pos1, pos1_end, pos2_end)` triples. -/
def compareStrings (s1 s2 : List Char) : List ChangeRegion :=
  toRegions (diffScript s1 s2) 0 0

/-- Applying a change-region list to the old text, in order: the part
of the old text before a region is kept, the region's span is replaced
by the new text's `[pos2, pos2_end)` span (the triple format stores
positions only, so replacement content is read off the new text), and
the old cursor jumps to `pos1_end`. -/
def applyChangeRegions :
    List ChangeRegion → Nat → Nat → List Char → List Char → List Char
  | [], oldPos, _, oldText, _ => oldText.drop oldPos
  | r :: rs, oldPos, newPos, oldText, newText =>
    (oldText.drop oldPos).take (r.pos1 - oldPos) ++
      ((newText.drop (newPos + (r.pos1 - oldPos))).take
        (r.pos2End - (newPos + (r.pos1 - oldPos)))) ++
      applyChangeRegions rs r.pos1End r.pos2End oldText newText

/-- Top-level application of a diff to the old text. -/
def applyDiff (regions : List ChangeRegion) (oldText newText : List Char) :
    List Char :=
  applyChangeRegions regions 0 0 oldText newText

/-! ## Position Patcher

Modelled from the spec: `LiveEdit::PatchFunctionPositions` (§4.2) is
not among the visible sources.  The policy: offsets before the first
region start are unchanged; offsets at or after a region's old end are
shifted so that the region's old end maps to its new end (`pos2_end` is
absolute in new-text coordinates, so passing a region replaces the
running shift by `pos2_end - pos1_end`); offsets falling inside a
region are clamped to that region's new end. -/

/-- Scan of the sorted region list with the shift accumulated from the
regions already passed. -/
def patchPosAux : Int → List ChangeRegion → Int → Int
  | delta, [], pos => pos + delta
  | delta, r :: rs, pos =>
    if pos < (r.pos1 : Int) then pos + delta
    else if pos < (r.pos1End : Int) then (r.pos2End : Int)
    else patchPosAux ((r.pos2End : Int) - (r.pos1End : Int)) rs pos

/-- Modelled from the spec: translation of one old-text offset through
the sorted change-region list. -/
def patchPos (regions : List ChangeRegion) (pos : Int) : Int :=
  patchPosAux 0 regions pos

/-- One step of the cumulative `(new_len - old_len)` sum of the spec:
a region's new length is `pos2_end` minus its new start, which is
`pos1` shifted by the sum accumulated so far. -/
def regionShift (acc : Int) (r : ChangeRegion) : Int :=
  acc + (((r.pos2End : Int) - ((r.pos1 : Int) + acc)) -
    ((r.pos1End : Int) - (r.pos1 : Int)))

/-- The cumulative `(new_len - old_len)` over a list of regions. -/
def cumulativeShift (l : List ChangeRegion) : Int :=
  l.foldl regionShift 0

/-- Modelled from the spec: `LiveEdit::PatchFunctionPositions` applied
to a batch of function records — each record's start and end offsets
are remapped independently through the region list. -/
def patchFunctionPositions (fns : List SharedFunctionInfo)
    (regions : List ChangeRegion) : List SharedFunctionInfo :=
  fns.map fun s =>
    { s with
      startPosition := (patchPos regions (s.startPosition : Int)).toNat
      endPosition := (patchPos regions (s.endPosition : Int)).toNat }

/-! ## Activation Scanner

Modelled from the spec: `LiveEdit::CheckAndDropActivations` (§4.4) is
not among the visible sources.  For each old function: `AVAILABLE` if
no live frame executes it; otherwise `BLOCKED_ACTIVE` unless forced
unwinding was requested, in which case the frames are dropped when all
of them are safely unwindable (`REPLACED_ON_ACTIVE_STACK`), a
suspended-coroutine frame yields `BLOCKED_ON_ACTIVE_GENERATOR`, and
any other non-droppable frame leaves the function `BLOCKED_ACTIVE`. -/

/-- Whether some live frame is currently executing the function. -/
def hasActivation (frames : List StackFrame) (fnId : Nat) : Bool :=
  frames.any fun f => f.functionId = fnId

/-- Classification of a single function, together with the (possibly
unwound) frame state. -/
def checkFunctionActivation (doDrop : Bool) (frames : List StackFrame)
    (fnId : Nat) : PatchabilityStatus × List StackFrame :=
  if hasActivation frames fnId then
    if doDrop then
      if (frames.filter fun f => f.functionId = fnId).all
          (fun f => f.droppable) then
        (PatchabilityStatus.REPLACED_ON_ACTIVE_STACK,
          frames.filter fun f => f.functionId ≠ fnId)
      else if frames.any fun f =>
          f.functionId = fnId && f.suspendedGenerator then
        (PatchabilityStatus.BLOCKED_ON_ACTIVE_GENERATOR, frames)
      else (PatchabilityStatus.BLOCKED_ACTIVE, frames)
    else (PatchabilityStatus.BLOCKED_ACTIVE, frames)
  else (PatchabilityStatus.AVAILABLE, frames)

/-- Modelled from the spec: `LiveEdit::CheckAndDropActivations` over an
index-aligned batch of old functions; returns the per-function status
list and the resulting frame state.  The new-function array of the
interface does not enter the classification. -/
def checkAndDropActivations (doDrop : Bool) (frames : List StackFrame) :
    List Nat → List PatchabilityStatus × List StackFrame
  | [] => ([], frames)
  | fn :: fns =>
    let step := checkFunctionActivation doDrop frames fn
    let rest := checkAndDropActivations doDrop step.2 fns
    (step.1 :: rest.1, rest.2)

/-! ## Code Swapper

Modelled from the spec: `LiveEdit::ReplaceFunctionCode` (§4.5 / §6) is
not among the visible sources.  The batch commits only after the
go/no-go decision of the activation scan: if any target function is
still `BLOCKED_ACTIVE`, the call fails with a prerequisite-violation
error and no function record is touched; otherwise every matched
old/new pair has its compiled-code reference rebound. -/

/-- The engine state a code-swapping batch operates on: the heap of
function records and the live frames of all threads. -/
structure EngineState where
  heap : List HeapObject
  frames : List StackFrame
deriving DecidableEq, Repr

/-- Rebinding of compiled code: every function record whose literal id
is matched by a pair `(literalId, newCode)` gets `newCode`; everything
else is untouched. -/
def rebindCode (pairs : List (Nat × Nat)) (heap : List HeapObject) :
    List HeapObject :=
  heap.map fun obj =>
    match obj with
    | HeapObject.sharedFunctionInfo s =>
      match List.lookup s.literalId pairs with
      | some c => HeapObject.sharedFunctionInfo { s with code := c }
      | none => HeapObject.sharedFunctionInfo s
    | o => o

/-- Modelled from the spec: the all-or-nothing code-swapping batch.
`pairs` lists the matched `(old function literal id, new code)` pairs.
The activation scan (check-only, no forced unwinding) provides the
go/no-go decision; mutation happens only after it. -/
def replaceFunctionCodeBatch (pairs : List (Nat × Nat))
    (st : EngineState) : EngineState × Option RuntimeError :=
  let statuses :=
    (checkAndDropActivations false st.frames (pairs.map Prod.fst)).1
  if PatchabilityStatus.BLOCKED_ACTIVE ∈ statuses then
    (st, some RuntimeError.prerequisiteViolation)
  else
    ({ st with heap := rebindCode pairs st.heap }, none)

/-! ## Script Version Manager

Modelled from the spec: `LiveEdit::ChangeScriptSource`,
`LiveEdit::FixupScript`, `LiveEdit::FunctionSourceUpdated`,
`LiveEdit::SetFunctionScript` and
`LiveEdit::ReplaceRefToNestedFunction` (§4.5 / §4.6) are not among the
visible sources. -/

/-- Modelled from the spec: `LiveEdit::ChangeScriptSource` — overwrite
the script's source with the new text; if a prior-version label is
supplied, first clone the current state into a snapshot carrying that
label, and return it. -/
def changeScriptSource (script : Script) (newSource : String)
    (oldName : Option String) : Script × Option Script :=
  match oldName with
  | some nm =>
    ({ script with source := newSource }, some { script with name := nm })
  | none => ({ script with source := newSource }, none)

/-- Modelled from the spec: `LiveEdit::FixupScript` — reconcile the
script to the renumbered literal-id space. -/
def fixupScript (script : Script) (maxFunctionLiteralId : Nat) : Script :=
  { script with maxLiteralId := maxFunctionLiteralId }

/-- Modelled from the spec: `LiveEdit::FunctionSourceUpdated` — the
function record identified by `fnId` receives its new literal id. -/
def functionSourceUpdated (heap : List HeapObject) (fnId : Nat)
    (newFunctionLiteralId : Nat) : List HeapObject :=
  heap.map fun obj =>
    match obj with
    | HeapObject.sharedFunctionInfo s =>
      if s.literalId = fnId then
        HeapObject.sharedFunctionInfo { s with literalId := newFunctionLiteralId }
      else HeapObject.sharedFunctionInfo s
    | o => o

/-- Modelled from the spec: `LiveEdit::SetFunctionScript` — repoint a
function record's owning script. -/
def setFunctionScript (heap : List HeapObject) (fnId : Nat)
    (scriptId : Nat) : List HeapObject :=
  heap.map fun obj =>
    match obj with
    | HeapObject.sharedFunctionInfo s =>
      if s.literalId = fnId then
        HeapObject.sharedFunctionInfo { s with scriptId := scriptId }
      else HeapObject.sharedFunctionInfo s
    | o => o

/-- Modelled from the spec: `LiveEdit::ReplaceRefToNestedFunction` —
in the parent record, rewrite every embedded reference slot holding the
original nested function to the substitute; a localized graph edit on
direct parent-to-child edges only. -/
def replaceRefToNestedFunction (heap : List HeapObject) (parentId : Nat)
    (origId : Nat) (substId : Nat) : List HeapObject :=
  heap.map fun obj =>
    match obj with
    | HeapObject.sharedFunctionInfo s =>
      if s.literalId = parentId then
        HeapObject.sharedFunctionInfo
          { s with nestedRefs := s.nestedRefs.map fun r =>
              if r = origId then substId else r }
      else HeapObject.sharedFunctionInfo s
    | o => o

/-- A compile-info entry produced by the external compiler for
`GatherCompileInfo` (parent-first pre-order in the array). -/
structure CompileInfoEntry where
  name : String
  startPosition : Nat
  endPosition : Nat
  literalId : Nat
  code : Nat
deriving DecidableEq, Repr

end LiveEdit

/-! ## Runtime glue (from `src/src/runtime/runtime-liveedit.cc`)

Each entry point mirrors its `RUNTIME_FUNCTION`: the leading
`CHECK(isolate->debug()->live_edit_enabled())` is the `enabled` guard —
when it fails the call halts with no effect — argument-shape checks
follow, and the body delegates to the engine operation. -/

open LiveEdit

/-- Lines 21–54: heap walk collecting every `SharedFunctionInfo` whose
`script()` equals the given script, each wrapped with its name, start
position and end position. -/
def Runtime_LiveEditFindSharedFunctionInfosForScript (enabled : Bool)
    (heap : List HeapObject) (scriptId : Nat) :
    List SharedInfoWrapper × Option RuntimeError :=
  if enabled then
    (((heap.filterMap fun obj =>
        match obj with
        | HeapObject.sharedFunctionInfo s =>
          if s.scriptId = scriptId then some s else none
        | HeapObject.other _ => none).map fun s =>
        SharedInfoWrapper.mk s.name s.startPosition s.endPosition s), none)
  else ([], some RuntimeError.checkFailed)

/-- Lines 64–76: delegate to the external compiler (an injected
collaborator here); a parse failure surfaces as a compile error. -/
def Runtime_LiveEditGatherCompileInfo (enabled : Bool) (_script : Script)
    (source : String)
    (compile : String → Except RuntimeError (List CompileInfoEntry)) :
    List CompileInfoEntry × Option RuntimeError :=
  if enabled then
    match compile source with
    | Except.ok infos => (infos, none)
    | Except.error e => ([], some e)
  else ([], some RuntimeError.checkFailed)

/-- Lines 82–102: change the script source; the wrapper of the old
script is returned when a snapshot was made, else the null sentinel
(`none`). -/
def Runtime_LiveEditReplaceScript (enabled : Bool) (script : Script)
    (newSource : String) (oldScriptName : Option String) :
    (Script × Option Script) × Option RuntimeError :=
  if enabled then
    (changeScriptSource script newSource oldScriptName, none)
  else ((script, none), some RuntimeError.checkFailed)

/-- Lines 106–118: recreate the shared-function-info bookkeeping after
bulk literal-id renumbering. -/
def Runtime_LiveEditFixupScript (enabled : Bool) (script : Script)
    (maxFunctionLiteralId : Nat) : Script × Option RuntimeError :=
  if enabled then (fixupScript script maxFunctionLiteralId, none)
  else (script, some RuntimeError.checkFailed)

/-- Lines 120–130: record a function's new literal id. -/
def Runtime_LiveEditFunctionSourceUpdated (enabled : Bool)
    (heap : List HeapObject) (fnId : Nat) (newFunctionLiteralId : Nat) :
    List HeapObject × Option RuntimeError :=
  if enabled then (functionSourceUpdated heap fnId newFunctionLiteralId, none)
  else (heap, some RuntimeError.checkFailed)

/-- Lines 134–144: replace compiled code of the target functions; the
engine batch (modelled from the spec) supplies the all-or-nothing
semantics. -/
def Runtime_LiveEditReplaceFunctionCode (enabled : Bool)
    (pairs : List (Nat × Nat)) (st : EngineState) :
    EngineState × Option RuntimeError :=
  if enabled then replaceFunctionCodeBatch pairs st
  else (st, some RuntimeError.checkFailed)

/-- Lines 148–170: connect a function record to another script. -/
def Runtime_LiveEditFunctionSetScript (enabled : Bool)
    (heap : List HeapObject) (fnId : Nat) (scriptId : Nat) :
    List HeapObject × Option RuntimeError :=
  if enabled then (setFunctionScript heap fnId scriptId, none)
  else (heap, some RuntimeError.checkFailed)

/-- Lines 175–190: in the parent function, replace the embedded
reference to the original nested function by the substitute. -/
def Runtime_LiveEditReplaceRefToNestedFunction (enabled : Bool)
    (heap : List HeapObject) (parentId origId substId : Nat) :
    List HeapObject × Option RuntimeError :=
  if enabled then (replaceRefToNestedFunction heap parentId origId substId, none)
  else (heap, some RuntimeError.checkFailed)

/-- Lines 198–208: remap the stored positions of the given function
records through the change-region list. -/
def Runtime_LiveEditPatchFunctionPositions (enabled : Bool)
    (fns : List SharedFunctionInfo) (regions : List ChangeRegion) :
    List SharedFunctionInfo × Option RuntimeError :=
  if enabled then (patchFunctionPositions fns regions, none)
  else (fns, some RuntimeError.checkFailed)

/-- Lines 215–247: validate that the old/new arrays are index-aligned
(`CHECK(new_shared_array->length() == old_shared_array->length())`),
then run the activation scan. -/
def Runtime_LiveEditCheckAndDropActivations (enabled : Bool)
    (oldFns : List Nat) (newFns : List (Option Nat)) (doDrop : Bool)
    (frames : List StackFrame) :
    (List PatchabilityStatus × List StackFrame) × Option RuntimeError :=
  if enabled then
    if newFns.length = oldFns.length then
      (checkAndDropActivations doDrop frames oldFns, none)
    else (([], frames), some RuntimeError.checkFailed)
  else (([], frames), some RuntimeError.checkFailed)

/-- Lines 253–268: compare the two strings; if the resulting region
list is non-empty, record the live-edit usage signal on the feature
tracker. -/
def Runtime_LiveEditCompareStrings (enabled : Bool) (s1 s2 : List Char)
    (tracker : List DebugFeature) :
    (List ChangeRegion × List DebugFeature) × Option RuntimeError :=
  if enabled then
    let result := compareStrings s1 s2
    if 0 < result.length then
      ((result, tracker ++ [DebugFeature.kLiveEdit]), none)
    else ((result, tracker), none)
  else (([], tracker), some RuntimeError.checkFailed)

/-! ## Differencer lemmas -/

namespace LiveEdit

/-- Identical texts produce an all-keep edit script. -/
theorem diffScript_self : ∀ xs : List Char, diffScript xs xs = xs.map DiffOp.keep
  | [] => by simp [diffScript]
  | x :: xs => by
    simp only [diffScript, if_pos rfl, List.map_cons]
    exact congrArg _ (diffScript_self xs)

/-- An all-keep script groups into no change region. -/
theorem toRegions_keeps : ∀ (xs : List Char) (a b : Nat),
    toRegions (xs.map DiffOp.keep) a b = []
  | [], _, _ => by simp [toRegions]
  | x :: xs, a, b => by
    simp only [List.map_cons, toRegions, isEdit]
    exact toRegions_keeps xs (a + 1) (b + 1)

/-- The old-text projection of a diff script is the old text. -/
theorem scriptOldText_diffScript : ∀ xs ys : List Char,
    scriptOldText (diffScript xs ys) = xs
  | [], ys => by
    induction ys with
    | nil => simp [diffScript, scriptOldText]
    | cons y ys ih => simpa [diffScript, scriptOldText] using ih
  | x :: xs, [] => by
    simpa [diffScript, scriptOldText] using scriptOldText_diffScript xs []
  | x :: xs, y :: ys => by
    simp only [diffScript]
    by_cases hxy : x = y
    · simpa [hxy, scriptOldText] using scriptOldText_diffScript xs ys
    · by_cases hl : lcsLen (x :: xs) ys ≤ lcsLen xs (y :: ys)
      · simpa [hxy, hl, scriptOldText] using scriptOldText_diffScript xs (y :: ys)
      · simpa [hxy, hl, scriptOldText] using scriptOldText_diffScript (x :: xs) ys
termination_by xs ys => xs.length + ys.length
decreasing_by all_goals simp_arith

/-- The new-text projection of a diff script is the new text. -/
theorem scriptNewText_diffScript : ∀ xs ys : List Char,
    scriptNewText (diffScript xs ys) = ys
  | [], ys => by
    induction ys with
    | nil => simp [diffScript, scriptNewText]
    | cons y ys ih => simpa [diffScript, scriptNewText] using ih
  | x :: xs, [] => by
    simpa [diffScript, scriptNewText] using scriptNewText_diffScript xs []
  | x :: xs, y :: ys => by
    simp only [diffScript]
    by_cases hxy : x = y
    · simpa [hxy, scriptNewText] using scriptNewText_diffScript xs ys
    · by_cases hl : lcsLen (x :: xs) ys ≤ lcsLen xs (y :: ys)
      · simpa [hxy, hl, scriptNewText] using scriptNewText_diffScript xs (y :: ys)
      · simpa [hxy, hl, scriptNewText] using scriptNewText_diffScript (x :: xs) ys
termination_by xs ys => xs.length + ys.length
decreasing_by all_goals simp_arith

/-- `scriptOldText` distributes over concatenation. -/
theorem scriptOldText_append : ∀ l1 l2 : List DiffOp,
    scriptOldText (l1 ++ l2) = scriptOldText l1 ++ scriptOldText l2
  | [], _ => rfl
  | DiffOp.keep c :: r, l2 => by
    simpa [scriptOldText] using scriptOldText_append r l2
  | DiffOp.del c :: r, l2 => by
    simpa [scriptOldText] using scriptOldText_append r l2
  | DiffOp.ins c :: r, l2 => by
    simpa [scriptOldText] using scriptOldText_append r l2

/-- `scriptNewText` distributes over concatenation. -/
theorem scriptNewText_append : ∀ l1 l2 : List DiffOp,
    scriptNewText (l1 ++ l2) = scriptNewText l1 ++ scriptNewText l2
  | [], _ => rfl
  | DiffOp.keep c :: r, l2 => by
    simpa [scriptNewText] using scriptNewText_append r l2
  | DiffOp.del c :: r, l2 => by
    simpa [scriptNewText] using scriptNewText_append r l2
  | DiffOp.ins c :: r, l2 => by
    simpa [scriptNewText] using scriptNewText_append r l2

/-- On a script of edit steps only, the old-text projection has as many
tokens as there are deletions. -/
theorem scriptOldText_length_of_edits : ∀ l : List DiffOp,
    (∀ o ∈ l, isEdit o = true) → (scriptOldText l).length = numDels l
  | [], _ => rfl
  | DiffOp.keep c :: r, h => by
    exact absurd (h _ (List.mem_cons_self _ _)) (by simp [isEdit])
  | DiffOp.del c :: r, h => by
    have := scriptOldText_length_of_edits r fun o ho => h o (List.mem_cons_of_mem _ ho)
    simp [scriptOldText, numDels, List.countP_cons] at this ⊢
    omega
  | DiffOp.ins c :: r, h => by
    have := scriptOldText_length_of_edits r fun o ho => h o (List.mem_cons_of_mem _ ho)
    simpa [scriptOldText, numDels, List.countP_cons] using this

/-- On a script of edit steps only, the new-text projection has as many
tokens as there are insertions. -/
theorem scriptNewText_length_of_edits : ∀ l : List DiffOp,
    (∀ o ∈ l, isEdit o = true) → (scriptNewText l).length = numIns l
  | [], _ => rfl
  | DiffOp.keep c :: r, h => by
    exact absurd (h _ (List.mem_cons_self _ _)) (by simp [isEdit])
  | DiffOp.del c :: r, h => by
    have := scriptNewText_length_of_edits r fun o ho => h o (List.mem_cons_of_mem _ ho)
    simpa [scriptNewText, numIns, List.countP_cons] using this
  | DiffOp.ins c :: r, h => by
    have := scriptNewText_length_of_edits r fun o ho => h o (List.mem_cons_of_mem _ ho)
    simp [scriptNewText, numIns, List.countP_cons] at this ⊢
    omega

/-- A script producing no region consists of kept tokens only, so its
two projections agree. -/
theorem toRegions_eq_nil_imp : ∀ (s : List DiffOp) (a b : Nat),
    toRegions s a b = [] → scriptOldText s = scriptNewText s
  | [], _, _, _ => rfl
  | op :: rest, a, b, h => by
    by_cases he : isEdit op = true
    · simp [toRegions, he] at h
    · cases op with
      | keep c =>
        simp only [toRegions, isEdit, if_neg] at h
        simpa [scriptOldText, scriptNewText] using
          toRegions_eq_nil_imp rest (a + 1) (b + 1) (by simpa using h)
      | del c => simp [isEdit] at he
      | ins c => simp [isEdit] at he

/-- From a cursor equation one step further: dropping one more token. -/
theorem drop_succ_of_drop_cons {l t : List Char} {c : Char} {n : Nat}
    (h : l.drop n = c :: t) : l.drop (n + 1) = t := by
  rw [← List.tail_drop, h]
  rfl

/-- The first region produced with old cursor `a` starts at or after
`a`. -/
theorem toRegions_head_ge : ∀ (s : List DiffOp) (a b : Nat)
    (r : ChangeRegion) (rs : List ChangeRegion),
    toRegions s a b = r :: rs → a ≤ r.pos1
  | [], a, b, r, rs => by simp [toRegions]
  | op :: rest, a, b, r, rs => by
    by_cases he : isEdit op = true
    · intro h
      simp only [toRegions, he, if_pos] at h
      cases h
      exact Nat.le_refl _
    · intro h
      simp only [toRegions, he] at h
      exact Nat.le_of_succ_le (toRegions_head_ge rest (a + 1) (b + 1) r rs (by simpa using h))

/-- Core round-trip invariant: if the old and new texts, from the
current cursors onwards, are exactly the two projections of the
remaining edit script, then applying the regions grouped from that
script reproduces the remaining new text. -/
theorem applyRegions_toRegions : ∀ (n : Nat) (s : List DiffOp), s.length ≤ n →
    ∀ (oldPos newPos : Nat) (oldText newText : List Char),
    oldText.drop oldPos = scriptOldText s →
    newText.drop newPos = scriptNewText s →
    applyChangeRegions (toRegions s oldPos newPos) oldPos newPos oldText newText
      = scriptNewText s := by
  intro n
  induction n with
  | zero =>
    intro s hs oldPos newPos oldText newText hOld hNew
    have hnil : s = [] := List.length_eq_zero.mp (Nat.le_zero.mp hs)
    subst hnil
    simpa [toRegions, applyChangeRegions, scriptOldText, scriptNewText] using hOld
  | succ n ih =>
    intro s hs oldPos newPos oldText newText hOld hNew
    match s with
    | [] =>
      simpa [toRegions, applyChangeRegions, scriptOldText, scriptNewText] using hOld
    | op :: rest =>
      by_cases he : isEdit op = true
      · -- a maximal run of edit steps becomes one region
        have hallEdit : ∀ o ∈ op :: rest.takeWhile isEdit, isEdit o = true := by
          intro o ho
          rcases List.mem_cons.mp ho with h1 | h1
          · exact h1 ▸ he
          · exact List.mem_takeWhile_imp h1
        have hsplit : op :: rest
            = (op :: rest.takeWhile isEdit) ++ rest.dropWhile isEdit := by
          simp [List.takeWhile_append_dropWhile]
        have hOldSplit : scriptOldText (op :: rest)
            = scriptOldText (op :: rest.takeWhile isEdit)
              ++ scriptOldText (rest.dropWhile isEdit) := by
          rw [hsplit]
          exact scriptOldText_append (op :: rest.takeWhile isEdit)
            (rest.dropWhile isEdit)
        have hNewSplit : scriptNewText (op :: rest)
            = scriptNewText (op :: rest.takeWhile isEdit)
              ++ scriptNewText (rest.dropWhile isEdit) := by
          rw [hsplit]
          exact scriptNewText_append (op :: rest.takeWhile isEdit)
            (rest.dropWhile isEdit)
        have hdlen : (scriptOldText (op :: rest.takeWhile isEdit)).length
            = numDels (op :: rest.takeWhile isEdit) :=
          scriptOldText_length_of_edits _ hallEdit
        have hilen : (scriptNewText (op :: rest.takeWhile isEdit)).length
            = numIns (op :: rest.takeWhile isEdit) :=
          scriptNewText_length_of_edits _ hallEdit
        have hstep : toRegions (op :: rest) oldPos newPos
            = ChangeRegion.mk oldPos (oldPos + numDels (op :: rest.takeWhile isEdit))
                (newPos + numIns (op :: rest.takeWhile isEdit)) ::
              toRegions (rest.dropWhile isEdit)
                (oldPos + numDels (op :: rest.takeWhile isEdit))
                (newPos + numIns (op :: rest.takeWhile isEdit)) := by
          simp [toRegions, he]
        have hOldRest : oldText.drop (oldPos + numDels (op :: rest.takeWhile isEdit))
            = scriptOldText (rest.dropWhile isEdit) := by
          rw [← List.drop_drop, hOld, hOldSplit, ← hdlen, List.drop_left]
        have hNewRest : newText.drop (newPos + numIns (op :: rest.takeWhile isEdit))
            = scriptNewText (rest.dropWhile isEdit) := by
          rw [← List.drop_drop, hNew, hNewSplit, ← hilen, List.drop_left]
        have hrec := ih (rest.dropWhile isEdit)
          (by
            have h1 := dropWhile_length_le isEdit rest
            have h2 : rest.length + 1 ≤ n + 1 := hs
            omega)
          (oldPos + numDels (op :: rest.takeWhile isEdit))
          (newPos + numIns (op :: rest.takeWhile isEdit))
          oldText newText hOldRest hNewRest
        rw [hstep]
        simp only [applyChangeRegions, Nat.sub_self, List.take_zero, List.nil_append,
          Nat.add_zero, Nat.add_sub_cancel_left]
        rw [hrec, hNew, hNewSplit, ← hilen, List.take_left, ← hNewSplit]
      · -- a kept token: both cursors advance
        cases op with
        | del c => simp [isEdit] at he
        | ins c => simp [isEdit] at he
        | keep c =>
          have hOld' : oldText.drop oldPos = c :: scriptOldText rest := by
            simpa [scriptOldText] using hOld
          have hNew' : newText.drop newPos = c :: scriptNewText rest := by
            simpa [scriptNewText] using hNew
          have hOldRest : oldText.drop (oldPos + 1) = scriptOldText rest :=
            drop_succ_of_drop_cons hOld'
          have hNewRest : newText.drop (newPos + 1) = scriptNewText rest :=
            drop_succ_of_drop_cons hNew'
          have hstep : toRegions (DiffOp.keep c :: rest) oldPos newPos
              = toRegions rest (oldPos + 1) (newPos + 1) := by
            simp [toRegions, isEdit]
          have hlen : rest.length ≤ n := by
            have : rest.length + 1 ≤ n + 1 := hs
            omega
          have hrec := ih rest hlen (oldPos + 1) (newPos + 1) oldText newText
            hOldRest hNewRest
          rw [hstep]
          show applyChangeRegions (toRegions rest (oldPos + 1) (newPos + 1))
              oldPos newPos oldText newText = scriptNewText (DiffOp.keep c :: rest)
          cases hregs : toRegions rest (oldPos + 1) (newPos + 1) with
          | nil =>
            have hkeep := toRegions_eq_nil_imp rest (oldPos + 1) (newPos + 1) hregs
            simp only [applyChangeRegions, scriptNewText]
            rw [hOld', hkeep]
          | cons r rs =>
            have hr : oldPos + 1 ≤ r.pos1 :=
              toRegions_head_ge rest (oldPos + 1) (newPos + 1) r rs hregs
            rw [hregs] at hrec
            have e1 : r.pos1 - oldPos = (r.pos1 - (oldPos + 1)) + 1 := by omega
            simp only [applyChangeRegions] at hrec ⊢
            rw [hOld', e1, List.take_succ_cons, ← hOldRest]
            have e2 : newPos + (r.pos1 - (oldPos + 1) + 1)
                = newPos + 1 + (r.pos1 - (oldPos + 1)) := by omega
            rw [e2]
            simp only [List.cons_append, scriptNewText]
            exact congrArg _ hrec

/-! ## Position Patcher lemmas -/

/-- The running shift after scanning past a list of regions: each
passed region replaces the shift by `pos2End - pos1End` (its new end is
absolute in new-text coordinates). -/
def chainShift (delta : Int) : List ChangeRegion → Int
  | [] => delta
  | r :: rs => chainShift ((r.pos2End : Int) - (r.pos1End : Int)) rs

/-- Scanning past regions that end at or before the offset only
updates the running shift. -/
theorem patchPosAux_pass : ∀ (before after : List ChangeRegion) (delta O : Int),
    (∀ b ∈ before, b.pos1 ≤ b.pos1End ∧ (b.pos1End : Int) ≤ O) →
    patchPosAux delta (before ++ after) O
      = patchPosAux (chainShift delta before) after O
  | [], _, _, _, _ => rfl
  | b :: before, after, delta, O, h => by
    have hb := h b (List.mem_cons_self b before)
    have h1 : ¬(O < (b.pos1 : Int)) := by
      have hb1 := hb.1
      have hb2 := hb.2
      omega
    have h2 : ¬(O < (b.pos1End : Int)) := by
      have hb2 := hb.2
      omega
    simp only [List.cons_append, patchPosAux, if_neg h1, if_neg h2, chainShift]
    exact patchPosAux_pass before after _ O fun x hx => h x (List.mem_cons_of_mem b hx)

/-- The claim's cumulative `(new_len - old_len)` sum telescopes to the
scan's running shift. -/
theorem foldl_regionShift_eq_chainShift : ∀ (l : List ChangeRegion) (d : Int),
    l.foldl regionShift d = chainShift d l
  | [], _ => rfl
  | r :: rs, d => by
    have hstep : regionShift d r = (r.pos2End : Int) - (r.pos1End : Int) := by
      unfold regionShift
      ring
    simp only [List.foldl_cons, chainShift, hstep]
    exact foldl_regionShift_eq_chainShift rs _

/-- Both offset bounds of a range that every region avoids (entirely
before it or strictly after it) receive the same shift. -/
theorem patchPosAux_length_aux : ∀ (regions : List ChangeRegion) (delta : Int)
    (s e : Nat),
    (∀ r ∈ regions, r.pos1 ≤ r.pos1End) → s ≤ e →
    (∀ r ∈ regions, r.pos1End ≤ s ∨ e < r.pos1) →
    patchPosAux delta regions (e : Int) - patchPosAux delta regions (s : Int)
      = (e : Int) - (s : Int)
  | [], delta, s, e, _, _, _ => by
    simp only [patchPosAux]
    ring
  | r :: rs, delta, s, e, hwf, hse, hdisj => by
    have h1 : r.pos1 ≤ r.pos1End := hwf r (List.mem_cons_self r rs)
    rcases hdisj r (List.mem_cons_self r rs) with h | h
    · have he1 : ¬((e : Int) < (r.pos1 : Int)) := by omega
      have he2 : ¬((e : Int) < (r.pos1End : Int)) := by omega
      have hs1 : ¬((s : Int) < (r.pos1 : Int)) := by omega
      have hs2 : ¬((s : Int) < (r.pos1End : Int)) := by omega
      simp only [patchPosAux, if_neg he1, if_neg he2, if_neg hs1, if_neg hs2]
      exact patchPosAux_length_aux rs _ s e
        (fun x hx => hwf x (List.mem_cons_of_mem r hx)) hse
        (fun x hx => hdisj x (List.mem_cons_of_mem r hx))
    · have he1 : (e : Int) < (r.pos1 : Int) := by omega
      have hs1 : (s : Int) < (r.pos1 : Int) := by omega
      simp only [patchPosAux, if_pos he1, if_pos hs1]
      ring

/-! ## Activation Scanner lemmas -/

/-- A check-only classification of one function leaves the frames
untouched. -/
theorem checkFunctionActivation_noDrop_snd (frames : List StackFrame) (fn : Nat) :
    (checkFunctionActivation false frames fn).2 = frames := by
  unfold checkFunctionActivation
  split <;> rfl

/-- A check-only scan of a batch leaves the frames untouched. -/
theorem checkAndDrop_noDrop_frames : ∀ (olds : List Nat) (frames : List StackFrame),
    (checkAndDropActivations false frames olds).2 = frames
  | [], _ => rfl
  | fn :: fns, frames => by
    simp only [checkAndDropActivations]
    rw [checkFunctionActivation_noDrop_snd]
    exact checkAndDrop_noDrop_frames fns frames

/-! ## Heap walk lemma -/

/-- The script filter over the heap returns as many records as match. -/
theorem filterMap_script_length (heap : List HeapObject) (scriptId : Nat) :
    (heap.filterMap fun obj => match obj with
      | HeapObject.sharedFunctionInfo s =>
        if s.scriptId = scriptId then some s else none
      | HeapObject.other _ => none).length
    = heap.countP fun obj => match obj with
      | HeapObject.sharedFunctionInfo s => s.scriptId == scriptId
      | HeapObject.other _ => false := by
  induction heap with
  | nil => rfl
  | cons obj rest ih =>
    cases obj with
    | other i => simpa [List.filterMap_cons, List.countP_cons] using ih
    | sharedFunctionInfo s =>
      by_cases h : s.scriptId = scriptId <;>
        simp [List.filterMap_cons, List.countP_cons, h, ih]

end LiveEdit

/-! ## Claim theorems -/

/-- C1: `ReplaceFunctionCode` is all-or-nothing and raises on blocked
activations — if any target function's patchability status is
`BLOCKED_ACTIVE`, the call fails with the prerequisite-violation error
and the state (in particular every function record's compiled-code
reference) is unchanged; otherwise it commits the code rebinding for
every matched old/new pair. -/
theorem replaceFunctionCode_all_or_nothing (pairs : List (Nat × Nat))
    (st : EngineState) :
    (PatchabilityStatus.BLOCKED_ACTIVE ∈
        (checkAndDropActivations false st.frames (pairs.map Prod.fst)).1 →
      Runtime_LiveEditReplaceFunctionCode true pairs st
        = (st, some RuntimeError.prerequisiteViolation)) ∧
    (PatchabilityStatus.BLOCKED_ACTIVE ∉
        (checkAndDropActivations false st.frames (pairs.map Prod.fst)).1 →
      (Runtime_LiveEditReplaceFunctionCode true pairs st).2 = none ∧
      ∀ s : SharedFunctionInfo, HeapObject.sharedFunctionInfo s ∈ st.heap →
        ∀ c : Nat, List.lookup s.literalId pairs = some c →
          HeapObject.sharedFunctionInfo { s with code := c }
            ∈ (Runtime_LiveEditReplaceFunctionCode true pairs st).1.heap) := by
  constructor
  · intro hb
    simp [Runtime_LiveEditReplaceFunctionCode, replaceFunctionCodeBatch, hb]
  · intro hb
    refine ⟨?_, ?_⟩
    · simp [Runtime_LiveEditReplaceFunctionCode, replaceFunctionCodeBatch, hb]
    · intro s hs c hc
      simp only [Runtime_LiveEditReplaceFunctionCode, replaceFunctionCodeBatch,
        if_pos rfl, if_neg hb]
      exact List.mem_map.mpr ⟨HeapObject.sharedFunctionInfo s, hs, by simp [hc]⟩

/-- Witness for C1: one live non-droppable frame on function 1 blocks
the batch rebinding function 1, leaving the state untouched. -/
theorem replaceFunctionCode_blocked_witness :
    Runtime_LiveEditReplaceFunctionCode true [(1, 99)]
        (EngineState.mk [HeapObject.sharedFunctionInfo
          (SharedFunctionInfo.mk "f" 0 10 1 7 5 [])]
          [StackFrame.mk 1 false false])
      = (EngineState.mk [HeapObject.sharedFunctionInfo
          (SharedFunctionInfo.mk "f" 0 10 1 7 5 [])]
          [StackFrame.mk 1 false false],
         some RuntimeError.prerequisiteViolation) :=
  (replaceFunctionCode_all_or_nothing [(1, 99)] _).1 (by decide)

/-- C2: diff round-trip law — applying the ordered change-region list
returned by the differencer to the old text, in order, reproduces the
new text exactly. -/
theorem compareStrings_roundTrip (A B : List Char) :
    applyDiff (compareStrings A B) A B = B := by
  have h := applyRegions_toRegions (diffScript A B).length (diffScript A B)
    (Nat.le_refl _) 0 0 A B
    (by simpa using (scriptOldText_diffScript A B).symm)
    (by simpa using (scriptNewText_diffScript A B).symm)
  simpa [applyDiff, compareStrings, scriptNewText_diffScript A B] using h

/-- C3: Position Patcher mapping policy — an offset before the first
region's start is unchanged; an offset at or after the old end of the
regions before it (and before the next region's start) is shifted by
the cumulative `(new_len - old_len)` of all regions entirely before
it; an offset falling inside a region is clamped to that region's new
end. -/
theorem patchFunctionPositions_policy (regions : List ChangeRegion) (O : Int)
    (hwf : ∀ r ∈ regions, r.pos1 ≤ r.pos1End) :
    (∀ r rs, regions = r :: rs → O < (r.pos1 : Int) →
      patchPos regions O = O) ∧
    (∀ before after, regions = before ++ after →
      (∀ b ∈ before, (b.pos1End : Int) ≤ O) →
      (∀ a rs, after = a :: rs → O < (a.pos1 : Int)) →
      patchPos regions O = O + cumulativeShift before) ∧
    (∀ before r after, regions = before ++ r :: after →
      (∀ b ∈ before, (b.pos1End : Int) ≤ O) →
      (r.pos1 : Int) ≤ O → O < (r.pos1End : Int) →
      patchPos regions O = (r.pos2End : Int)) := by
  refine ⟨?_, ?_, ?_⟩
  · intro r rs heq hlt
    subst heq
    simp only [patchPos, patchPosAux, if_pos hlt]
    ring
  · intro before after heq hb hafter
    subst heq
    have hpass := patchPosAux_pass before after 0 O
      (fun b hbm => ⟨hwf b (List.mem_append_left _ hbm), hb b hbm⟩)
    rw [patchPos] at *
    rw [hpass, cumulativeShift, foldl_regionShift_eq_chainShift]
    cases after with
    | nil =>
      simp only [patchPosAux]
    | cons a rs =>
      have ha := hafter a rs rfl
      simp only [patchPosAux, if_pos ha]
  · intro before r after heq hb h1 h2
    subst heq
    have hpass := patchPosAux_pass before (r :: after) 0 O
      (fun b hbm => ⟨hwf b (List.mem_append_left _ hbm), hb b hbm⟩)
    rw [patchPos] at *
    rw [hpass]
    simp only [patchPosAux, if_neg (not_lt.mpr h1), if_pos h2]

/-- Witness for C3 at a concrete region list: the offset 5 lies after
the region `[2,4)` (old end 4) and before the region starting at 6, so
it is shifted by that first region's cumulative length change. -/
theorem patchFunctionPositions_policy_witness :
    patchPos [ChangeRegion.mk 2 4 7, ChangeRegion.mk 6 8 9] 5
      = 5 + cumulativeShift [ChangeRegion.mk 2 4 7] := by
  have h := patchFunctionPositions_policy
    [ChangeRegion.mk 2 4 7, ChangeRegion.mk 6 8 9] 5 (by decide)
  exact h.2.1 [ChangeRegion.mk 2 4 7] [ChangeRegion.mk 6 8 9] rfl (by decide)
    (by
      intro a rs heq
      injection heq with h1 h2
      rw [← h1]
      decide)

/-- C4: `ReplaceScriptSource` snapshot semantics — with a prior-version
label the call returns a snapshot whose source equals the script's
source before the call while the live script's source becomes the new
text; with no label it returns the "no previous version" sentinel. -/
theorem replaceScript_snapshot_semantics (script : Script)
    (newSource : String) (nm : String) :
    ((Runtime_LiveEditReplaceScript true script newSource (some nm)).1.2).map
        Script.source = some script.source ∧
    (Runtime_LiveEditReplaceScript true script newSource (some nm)).1.1.source
        = newSource ∧
    (Runtime_LiveEditReplaceScript true script newSource none).1.2 = none :=
  ⟨rfl, rfl, rfl⟩

/-- C5: `CheckActivations` idempotence — a check-only scan
(`forceDrop = false`) mutates nothing (the frame state it returns is
the input one), and running it a second time on its own output yields
the same per-function classification and state. -/
theorem checkAndDropActivations_idempotent (frames : List StackFrame)
    (olds : List Nat) :
    (checkAndDropActivations false frames olds).2 = frames ∧
    checkAndDropActivations false
        ((checkAndDropActivations false frames olds).2) olds
      = checkAndDropActivations false frames olds :=
  ⟨checkAndDrop_noDrop_frames olds frames,
    by rw [checkAndDrop_noDrop_frames olds frames]⟩

/-- C6: usage-signal condition — the string-comparison entry point
appends the live-edit feature-tracker event exactly when the returned
change-region list is non-empty. -/
theorem compareStrings_usage_signal (s1 s2 : List Char)
    (tracker : List DebugFeature) :
    ((Runtime_LiveEditCompareStrings true s1 s2 tracker).1.2
        = tracker ++ [DebugFeature.kLiveEdit] ↔ compareStrings s1 s2 ≠ []) ∧
    ((Runtime_LiveEditCompareStrings true s1 s2 tracker).1.2 = tracker ↔
        compareStrings s1 s2 = []) ∧
    (Runtime_LiveEditCompareStrings true s1 s2 tracker).1.1
        = compareStrings s1 s2 := by
  unfold Runtime_LiveEditCompareStrings
  by_cases h : compareStrings s1 s2 = []
  · simp [h]
  · have hlen : 0 < (compareStrings s1 s2).length := List.length_pos.mpr h
    refine ⟨?_, ?_, ?_⟩
    · simpa [hlen] using h
    · simp only [if_pos rfl, if_pos hlen]
      constructor
      · intro habs
        have := congrArg List.length habs
        simp at this
      · intro habs
        exact absurd habs h
    · simp [hlen]

/-- C7 counterexample: the function range `[3,5)` is disjoint, as a
set of offsets, from the single change region `[5,10)` (new end 12),
yet the patched offsets do not preserve the range's length:
`Patch(5) = 12` (5 falls inside the region under the patch policy) and
`Patch(3) = 3`, so the difference is 9, not 2. -/
theorem patchPos_disjoint_counterexample :
    (∀ x : Nat, ¬(3 ≤ x ∧ x < 5 ∧ 5 ≤ x ∧ x < 10)) ∧
    patchPos [ChangeRegion.mk 5 10 12] 5 - patchPos [ChangeRegion.mk 5 10 12] 3
      ≠ (5 : Int) - 3 :=
  ⟨fun x => by omega, by decide⟩

/-- C7 amended: for every range `[s,e)` such that every change region
lies entirely before it (`old_end ≤ s`) or starts strictly after it
(`e < old_begin`), the patched offsets preserve the length:
`Patch(e) - Patch(s) = e - s`. -/
theorem patchPos_length_preserved (regions : List ChangeRegion) (s e : Nat)
    (hwf : ∀ r ∈ regions, r.pos1 ≤ r.pos1End) (hse : s ≤ e)
    (hdisj : ∀ r ∈ regions, r.pos1End ≤ s ∨ e < r.pos1) :
    patchPos regions (e : Int) - patchPos regions (s : Int)
      = (e : Int) - (s : Int) :=
  patchPosAux_length_aux regions 0 s e hwf hse hdisj

/-- Witness for the amended C7: the range `[5,9)` lies after the
region `[2,4)`, and its length is preserved. -/
theorem patchPos_length_preserved_witness :
    patchPos [ChangeRegion.mk 2 4 7] ((9 : Nat) : Int)
        - patchPos [ChangeRegion.mk 2 4 7] ((5 : Nat) : Int)
      = ((9 : Nat) : Int) - ((5 : Nat) : Int) :=
  patchPos_length_preserved [ChangeRegion.mk 2 4 7] 5 9 (by decide) (by decide)
    (by decide)

/-- C8: diff identity — comparing a text with itself yields the empty
change-region list. -/
theorem compareStrings_self_empty (A : List Char) : compareStrings A A = [] := by
  unfold compareStrings
  rw [diffScript_self]
  exact toRegions_keeps A 0 0

/-- C9: `FindSharedFunctionInfosForScript` exactness — the returned
array consists exactly of the wrappers of those function records whose
script reference equals the given script: every element comes from
such a record and carries its name and positions, every such record in
the heap appears, and the array's length equals their count. -/
theorem findSharedFunctionInfos_exact (heap : List HeapObject) (scriptId : Nat) :
    (∀ w ∈ (Runtime_LiveEditFindSharedFunctionInfosForScript true heap scriptId).1,
      HeapObject.sharedFunctionInfo w.shared ∈ heap ∧
      w.shared.scriptId = scriptId ∧ w.name = w.shared.name ∧
      w.startPosition = w.shared.startPosition ∧
      w.endPosition = w.shared.endPosition) ∧
    (∀ s : SharedFunctionInfo, HeapObject.sharedFunctionInfo s ∈ heap →
      s.scriptId = scriptId →
      SharedInfoWrapper.mk s.name s.startPosition s.endPosition s
        ∈ (Runtime_LiveEditFindSharedFunctionInfosForScript true heap scriptId).1) ∧
    (Runtime_LiveEditFindSharedFunctionInfosForScript true heap scriptId).1.length
      = heap.countP (fun obj => match obj with
          | HeapObject.sharedFunctionInfo s => s.scriptId == scriptId
          | HeapObject.other _ => false) := by
  refine ⟨?_, ?_, ?_⟩
  · intro w hw
    simp only [Runtime_LiveEditFindSharedFunctionInfosForScript, if_pos rfl] at hw
    rcases List.mem_map.mp hw with ⟨s, hs, hws⟩
    rcases List.mem_filterMap.mp hs with ⟨obj, hobj, hf⟩
    cases obj with
    | other i => simp at hf
    | sharedFunctionInfo t =>
      by_cases ht : t.scriptId = scriptId
      · simp only [if_pos ht, Option.some.injEq] at hf
        subst hf
        subst hws
        exact ⟨hobj, ht, rfl, rfl, rfl⟩
      · simp [ht] at hf
  · intro s hs hsid
    simp only [Runtime_LiveEditFindSharedFunctionInfosForScript, if_pos rfl]
    exact List.mem_map.mpr ⟨s, List.mem_filterMap.mpr ⟨_, hs, by simp [hsid]⟩, rfl⟩
  · have hfst : (Runtime_LiveEditFindSharedFunctionInfosForScript true heap scriptId).1
        = (heap.filterMap fun obj =>
            match obj with
            | HeapObject.sharedFunctionInfo s =>
              if s.scriptId = scriptId then some s else none
            | HeapObject.other _ => none).map fun s =>
            SharedInfoWrapper.mk s.name s.startPosition s.endPosition s := rfl
    rw [hfst, List.length_map]
    exact filterMap_script_length heap scriptId

/-- Witness for C9: a concrete heap with one matching record and one
unrelated object; the matching record's wrapper is returned. -/
theorem findSharedFunctionInfos_witness :
    SharedInfoWrapper.mk "f" 0 10 (SharedFunctionInfo.mk "f" 0 10 1 7 5 [])
      ∈ (Runtime_LiveEditFindSharedFunctionInfosForScript true
          [HeapObject.other 0,
           HeapObject.sharedFunctionInfo (SharedFunctionInfo.mk "f" 0 10 1 7 5 [])]
          7).1 :=
  (findSharedFunctionInfos_exact
      [HeapObject.other 0,
       HeapObject.sharedFunctionInfo (SharedFunctionInfo.mk "f" 0 10 1 7 5 [])]
      7).2.1
    (SharedFunctionInfo.mk "f" 0 10 1 7 5 []) (by decide) (by decide)

/-- C10: live-edit-enabled precondition — with live edit disabled,
every runtime entry point halts at the initial check with a failed
check and performs no mutation: each returns its input state unchanged
together with the check-failure error. -/
theorem liveEdit_enabled_guard :
    (∀ (heap : List HeapObject) (scriptId : Nat),
      Runtime_LiveEditFindSharedFunctionInfosForScript false heap scriptId
        = ([], some RuntimeError.checkFailed)) ∧
    (∀ (script : Script) (source : String)
        (compile : String → Except RuntimeError (List CompileInfoEntry)),
      Runtime_LiveEditGatherCompileInfo false script source compile
        = ([], some RuntimeError.checkFailed)) ∧
    (∀ (script : Script) (newSource : String) (oldName : Option String),
      Runtime_LiveEditReplaceScript false script newSource oldName
        = ((script, none), some RuntimeError.checkFailed)) ∧
    (∀ (script : Script) (maxId : Nat),
      Runtime_LiveEditFixupScript false script maxId
        = (script, some RuntimeError.checkFailed)) ∧
    (∀ (heap : List HeapObject) (fnId newId : Nat),
      Runtime_LiveEditFunctionSourceUpdated false heap fnId newId
        = (heap, some RuntimeError.checkFailed)) ∧
    (∀ (pairs : List (Nat × Nat)) (st : EngineState),
      Runtime_LiveEditReplaceFunctionCode false pairs st
        = (st, some RuntimeError.checkFailed)) ∧
    (∀ (heap : List HeapObject) (fnId scriptId : Nat),
      Runtime_LiveEditFunctionSetScript false heap fnId scriptId
        = (heap, some RuntimeError.checkFailed)) ∧
    (∀ (heap : List HeapObject) (parentId origId substId : Nat),
      Runtime_LiveEditReplaceRefToNestedFunction false heap parentId origId substId
        = (heap, some RuntimeError.checkFailed)) ∧
    (∀ (fns : List SharedFunctionInfo) (regions : List ChangeRegion),
      Runtime_LiveEditPatchFunctionPositions false fns regions
        = (fns, some RuntimeError.checkFailed)) ∧
    (∀ (olds : List Nat) (news : List (Option Nat)) (doDrop : Bool)
        (frames : List StackFrame),
      Runtime_LiveEditCheckAndDropActivations false olds news doDrop frames
        = (([], frames), some RuntimeError.checkFailed)) ∧
    (∀ (s1 s2 : List Char) (tracker : List DebugFeature),
      Runtime_LiveEditCompareStrings false s1 s2 tracker
        = (([], tracker), some RuntimeError.checkFailed)) :=
  ⟨fun _ _ => rfl, fun _ _ _ => rfl, fun _ _ _ => rfl, fun _ _ => rfl,
    fun _ _ _ => rfl, fun _ _ => rfl, fun _ _ _ => rfl, fun _ _ _ _ => rfl,
    fun _ _ => rfl, fun _ _ _ _ => rfl, fun _ _ _ => rfl⟩
